import Mathlib

/-!
Verification of the fluid prefixed-id library.

The repository contains two variants of the library:

* the strict Base62 variant (`generate` / `parse` / `validate`): prefixes are
  restricted to lowercase alphanumerics and underscores (1..40 chars), the
  encoded UUID uses the Base62 alphabet, and `parse` splits an id at the
  *last* underscore;
* the permissive Crockford Base32 variant (`generatePrefixedId` /
  `parsePrefixedId` / `validatePrefixedId`): any prefix string is accepted,
  ids are capped at 255 characters, the codec is Crockford Base32 with
  case-insensitive and confusion-resistant decoding, and `parsePrefixedId`
  splits at the *first* underscore.

We embed both variants.  JavaScript BigInt values are modelled as `Nat`
(all values in this code are non-negative), byte arrays as `Nat → Nat`
index functions whose entries are below 256, and thrown exceptions as
`Except` error values carrying the thrown message.
-/

deriving instance DecidableEq for Except

/-- One step of JavaScript `Map.set`: later insertions shadow earlier ones. -/
def mset (m : Char → Option Nat) (k : Char) (v : Nat) : Char → Option Nat :=
  fun c => if c = k then some v else m c

/-- The digit-emitting loop shared by `encodeCrockfordBase32` and
`encodeBase62` (`while (num > 0) { result = ALPHABET[num % base] + result;
num = num / base }`), written as structural recursion on a fuel argument so
that it evaluates inside the kernel; the callers pass `n` itself as fuel,
which always suffices because the value shrinks by a factor `base ≥ 2` on
every iteration. -/
def radixEncodeGo (base : Nat) (alpha : List Char) : Nat → Nat → List Char
  | 0, _ => []
  | f + 1, n =>
    if n = 0 then []
    else radixEncodeGo base alpha f (n / base) ++ [alpha.getD (n % base) ' ']

/-- The accumulating decode loop shared by `decodeCrockfordBase32` and
`decodeBase62` (`result = result * base + value`, throwing on a character
that is not in the decode table). -/
def radixDecodeGo (base : Nat) (tbl : Char → Option Nat) (err : Char → String) :
    List Char → Nat → Except String Nat
  | [], acc => Except.ok acc
  | c :: rest, acc =>
    match tbl c with
    | none => Except.error (err c)
    | some v => radixDecodeGo base tbl err rest (acc * base + v)

namespace Fluid

/-- Base62 alphabet (0-9, A-Z, a-z) from the strict variant. -/
def BASE62_ALPHABET : List Char :=
  ("0123456789ABCDEFGHIJKLMNOPQRSTUVWXYZabcdefghijklmnopqrstuvwxyz").toList

/-- The strict variant's decode map: each alphabet character maps to its
index; nothing else is inserted. -/
def DECODE_MAP : Char → Option Nat :=
  (List.range BASE62_ALPHABET.length).foldl
    (fun m i => mset m (BASE62_ALPHABET.getD i ' ') i) (fun _ => none)

/-- `encodeBase62`: repeated division by 62, most significant digit first;
`0` encodes as `"0"`. -/
def encodeBase62 (num : Nat) : String :=
  if num = 0 then "0" else ⟨radixEncodeGo 62 BASE62_ALPHABET num num⟩

/-- `decodeBase62`: left-to-right accumulation, throwing on characters
outside the Base62 alphabet. -/
def decodeBase62 (str : String) : Except String Nat :=
  radixDecodeGo 62 DECODE_MAP
    (fun c => "Invalid Base62 character: " ++ c.toString) str.data 0

end Fluid

namespace HumanIds

/-- Crockford's Base32 alphabet (excludes I, L, O, U) from the permissive
variant. -/
def CROCKFORD_ALPHABET : List Char :=
  ("0123456789ABCDEFGHJKMNPQRSTVWXYZ").toList

/-- The permissive variant's decode map: each alphabet character maps from
both its upper and lower case form, and the confusion-prone characters
I/i/L/l map to 1 and O/o map to 0. -/
def DECODE_MAP : Char → Option Nat :=
  mset (mset (mset (mset (mset (mset
    ((List.range CROCKFORD_ALPHABET.length).foldl
      (fun m i =>
        mset (mset m (CROCKFORD_ALPHABET.getD i ' ') i)
          ((CROCKFORD_ALPHABET.getD i ' ').toLower) i)
      (fun _ => none))
    'I' 1) 'i' 1) 'L' 1) 'l' 1) 'O' 0) 'o' 0

/-- `encodeCrockfordBase32`: repeated division by 32, most significant digit
first; `0` encodes as `"0"`. -/
def encodeCrockfordBase32 (num : Nat) : String :=
  if num = 0 then "0" else ⟨radixEncodeGo 32 CROCKFORD_ALPHABET num num⟩

/-- `decodeCrockfordBase32`: left-to-right accumulation, throwing on
characters that are not in the decode map. -/
def decodeCrockfordBase32 (str : String) : Except String Nat :=
  radixDecodeGo 32 DECODE_MAP
    (fun c => "Invalid Crockford Base32 character: " ++ c.toString) str.data 0

end HumanIds

/-- Lowercase hex digits, as produced by JavaScript `toString(16)`. -/
def hexAlphabet : List Char := ("0123456789abcdef").toList

/-- The hex digit for a value below 16. -/
def hexChar (n : Nat) : Char := hexAlphabet.getD n ' '

/-- `b.toString(16).padStart(2, "0")` for a byte `b < 256`. -/
def toHex2 (b : Nat) : List Char := [hexChar (b / 16), hexChar (b % 16)]

/-- Case-insensitive hex digit value, as used by JavaScript `BigInt("0x"+s)`. -/
def hexVal (c : Char) : Option Nat := hexAlphabet.findIdx? (fun d => d == c.toLower)

/-- `BigInt("0x" + s)` on a hex string, as a left fold.  The generators only
ever apply this to well-formed hex strings. -/
def hexToNat (l : List Char) : Nat := l.foldl (fun a c => a * 16 + (hexVal c).getD 0) 0

/-- `num.toString(16)`: minimal-length lowercase hex rendering, `"0"` for 0. -/
def natToHex (n : Nat) : List Char := if n = 0 then ['0'] else radixEncodeGo 16 hexAlphabet n n

/-- `hex.padStart(32, "0")`. -/
def padStart32 (l : List Char) : List Char := List.replicate (32 - l.length) '0' ++ l

/-- JavaScript `s.slice(a, b)` for `a ≤ b`. -/
def jsSlice (l : List Char) (a b : Nat) : List Char := (l.drop a).take (b - a)

/-- The template
`hex.slice(0,8)-hex.slice(8,12)-hex.slice(12,16)-hex.slice(16,20)-hex.slice(20,32)`
used by both variants to shape a 32-digit hex string as a canonical UUID. -/
def uuidFormat (h : List Char) : List Char :=
  jsSlice h 0 8 ++ '-' :: jsSlice h 8 12 ++ '-' :: jsSlice h 12 16 ++
    '-' :: jsSlice h 16 20 ++ '-' :: jsSlice h 20 32

/-- Membership in the character class `[0-9a-f]` under the `/i` flag. -/
def isHexDigitCI (c : Char) : Bool :=
  ('0' ≤ c && c ≤ '9') || ('a' ≤ c && c ≤ 'f') || ('A' ≤ c && c ≤ 'F')

/-- The regex `^[0-9a-f]{8}-[0-9a-f]{4}-[0-9a-f]{4}-[0-9a-f]{4}-[0-9a-f]{12}$/i`
shared (textually identical) by both variants. -/
def isValidUUID (uuid : String) : Bool :=
  let l := uuid.data
  (l.length == 36) && (l.take 8).all isHexDigitCI && (l.getD 8 ' ' == '-') &&
    ((l.drop 9).take 4).all isHexDigitCI && (l.getD 13 ' ' == '-') &&
    ((l.drop 14).take 4).all isHexDigitCI && (l.getD 18 ' ' == '-') &&
    ((l.drop 19).take 4).all isHexDigitCI && (l.getD 23 ' ' == '-') &&
    ((l.drop 24).take 12).all isHexDigitCI

/-- The two kinds of parse-time failures: the pre-split missing-separator
error (`Invalid prefixed ID format: ...`) and the wrapper around failures
occurring after the split (`Failed to parse ID: ...`).  Both variants throw
exactly these two shapes of error from their `parse`. -/
inductive ParseErr where
  | missingSeparator (msg : String)
  | parseFailure (msg : String)
deriving DecidableEq

/-- `id.lastIndexOf("_")`, returning `none` for JavaScript's `-1`. -/
def lastIndexOfUnderscore (l : List Char) : Option Nat :=
  match List.findIdx? (fun c => c == '_') l.reverse with
  | none => none
  | some i => some (l.length - 1 - i)

namespace Fluid

/-- The 16-byte UUIDv7 value of the strict variant: 16 random bytes, the
first six overwritten with the big-endian 48-bit millisecond timestamp,
the version nibble forced in byte 6 and the variant bits in byte 8.
`r` is the random 16-byte array, indexed 0..15. -/
def uuidBytes (t : Nat) (r : Nat → Nat) : List Nat :=
  [(t >>> 40) &&& 255, (t >>> 32) &&& 255, (t >>> 24) &&& 255,
   (t >>> 16) &&& 255, (t >>> 8) &&& 255, t &&& 255,
   (r 6 &&& 15) ||| 112, r 7,
   (r 8 &&& 63) ||| 128, r 9, r 10, r 11, r 12, r 13, r 14, r 15]

/-- The strict variant's `generateUUIDv7`, as a function of the clock
reading and the random bytes: hex-format every byte and shape with
hyphens. -/
def generateUUIDv7 (t : Nat) (r : Nat → Nat) : String :=
  ⟨uuidFormat ((uuidBytes t r).map toHex2).flatten⟩

/-- `uuidToBase62`: strip hyphens, read as hex, encode in Base62. -/
def uuidToBase62 (uuid : String) : String :=
  encodeBase62 (hexToNat (uuid.data.filter (fun c => c != '-')))

/-- `base62ToUUID`: decode, render as hex padded to 32 digits, add hyphens. -/
def base62ToUUID (base62 : String) : Except String String :=
  (decodeBase62 base62).map (fun num => ⟨uuidFormat (padStart32 (natToHex num))⟩)

/-- One character of the class `[a-z0-9_]`. -/
def prefixCharOk (c : Char) : Bool :=
  ('a' ≤ c && c ≤ 'z') || ('0' ≤ c && c ≤ '9') || c == '_'

/-- The regex `^[a-z0-9_]{1,40}$`. -/
def prefixOk (p : String) : Bool :=
  (1 ≤ p.data.length : Bool) && (p.data.length ≤ 40 : Bool) && p.data.all prefixCharOk

/-- `validatePrefix`, throwing on strings outside `^[a-z0-9_]{1,40}$`. -/
def validatePrefix (p : String) : Except String Unit :=
  if prefixOk p then Except.ok () else Except.error ("invalid prefix: " ++ p)

/-- One character of the class `[0-9a-zA-Z]`. -/
def base62CharOk (c : Char) : Bool :=
  ('0' ≤ c && c ≤ '9') || ('a' ≤ c && c ≤ 'z') || ('A' ≤ c && c ≤ 'Z')

/-- `validateBase62`: reject the empty string, then reject anything outside
`^[0-9a-zA-Z]+$`. -/
def validateBase62 (base62 : String) : Except String Unit :=
  if base62.data.length = 0 then Except.error ("Empty base62 part")
  else if base62.data.all base62CharOk then Except.ok ()
  else Except.error ("Invalid Base62 character in: " ++ base62)

/-- The strict variant's `generate`: validate the prefix, build a fresh
UUIDv7 from the clock and the random bytes, encode it, concatenate. -/
def generate (p : String) (t : Nat) (r : Nat → Nat) : Except String String :=
  (validatePrefix p).map (fun _ => p ++ "_" ++ uuidToBase62 (generateUUIDv7 t r))

/-- The body of the `try` block inside the strict variant's `parse`. -/
def parseInner (p base62 : String) : Except String (String × String) := do
  validatePrefix p
  validateBase62 base62
  let uuid ← base62ToUUID base62
  if isValidUUID uuid then pure (p, uuid)
  else Except.error ("Invalid UUID: " ++ uuid)

/-- The strict variant's `parse`: split at the last underscore (throwing
`Invalid prefixed ID format` when there is none), then validate the prefix,
validate and decode the trailing part, and check the UUID shape, wrapping
any of those failures as `Failed to parse ID: ...`. -/
def parse (id : String) : Except ParseErr (String × String) :=
  match lastIndexOfUnderscore id.data with
  | none => Except.error (ParseErr.missingSeparator ("Invalid prefixed ID format: " ++ id))
  | some k =>
    match parseInner ⟨id.data.take k⟩ ⟨id.data.drop (k + 1)⟩ with
    | Except.ok r => Except.ok r
    | Except.error m => Except.error (ParseErr.parseFailure ("Failed to parse ID: " ++ m))

/-- The strict variant's `validate`: attempt `parse`; on failure `false`;
on success `true` when no expected prefix was passed, else exact string
equality of the parsed prefix with the expected one. -/
def validate (id : String) (expected : Option String) : Bool :=
  match parse id with
  | Except.ok parsed =>
    match expected with
    | none => true
    | some q => parsed.1 == q
  | Except.error _ => false

end Fluid

namespace HumanIds

/-- The 16-byte UUIDv7 value of the permissive variant: six timestamp bytes,
then `randomBytes[0]`, then the version nibble OR-ed into byte index 7 (as
the source does), the variant bits in byte 8, and `randomBytes[3..9]` in
bytes 9..15.  `r` is the random 12-byte array, indexed 0..11. -/
def uuidBytes (t : Nat) (r : Nat → Nat) : List Nat :=
  [(t >>> 40) &&& 255, (t >>> 32) &&& 255, (t >>> 24) &&& 255,
   (t >>> 16) &&& 255, (t >>> 8) &&& 255, t &&& 255,
   r 0, (r 1 &&& 15) ||| 112,
   (r 2 &&& 63) ||| 128, r 3, r 4, r 5, r 6, r 7, r 8, r 9]

/-- The permissive variant's `generateUUIDv7` as a function of the clock
reading and the random bytes. -/
def generateUUIDv7 (t : Nat) (r : Nat → Nat) : String :=
  ⟨uuidFormat ((uuidBytes t r).map toHex2).flatten⟩

/-- `uuidToCrockfordBase32`: strip hyphens, read as hex, encode. -/
def uuidToCrockfordBase32 (uuid : String) : String :=
  encodeCrockfordBase32 (hexToNat (uuid.data.filter (fun c => c != '-')))

/-- `crockfordBase32ToUuid`: decode, pad to 32 hex digits, add hyphens. -/
def crockfordBase32ToUuid (base32 : String) : Except String String :=
  (decodeCrockfordBase32 base32).map (fun num => ⟨uuidFormat (padStart32 (natToHex num))⟩)

/-- The permissive variant's `generatePrefixedId`: no prefix validation;
compose and then fail if the result exceeds 255 characters. -/
def generatePrefixedId (p : String) (t : Nat) (r : Nat → Nat) : Except String String :=
  let id := p ++ "_" ++ uuidToCrockfordBase32 (generateUUIDv7 t r)
  if 255 < id.length then
    Except.error ("Generated ID exceeds 255 characters: " ++ toString id.length)
  else Except.ok id

/-- The body of the `try` block inside `parsePrefixedId`. -/
def parseInner (base32 : String) : Except String String := do
  let uuid ← crockfordBase32ToUuid base32
  if isValidUUID uuid then pure uuid
  else Except.error ("Invalid UUID: " ++ uuid)

/-- The permissive variant's `parsePrefixedId`: split at the *first*
underscore (throwing `Invalid prefixed ID format` when there is none), then
decode and shape-check, wrapping failures as `Failed to parse ID: ...`.
No prefix validation and no emptiness check on the trailing part. -/
def parsePrefixedId (id : String) : Except ParseErr (String × String) :=
  match List.findIdx? (fun c => c == '_') id.data with
  | none => Except.error (ParseErr.missingSeparator ("Invalid prefixed ID format: " ++ id))
  | some k =>
    match parseInner ⟨id.data.drop (k + 1)⟩ with
    | Except.ok uuid => Except.ok (⟨id.data.take k⟩, uuid)
    | Except.error m => Except.error (ParseErr.parseFailure ("Failed to parse ID: " ++ m))

/-- The permissive variant's `validatePrefixedId`: attempt the parse and
compare the parsed prefix with the expected one; `false` on any failure. -/
def validatePrefixedId (id : String) (expected : String) : Bool :=
  match parsePrefixedId id with
  | Except.ok parsed => parsed.1 == expected
  | Except.error _ => false

end HumanIds

/-- The big-endian numeric value of a byte list (the 128-bit integer a
16-byte UUID value denotes). -/
def beNat (bs : List Nat) : Nat := bs.foldl (fun a b => a * 256 + b) 0

/-- JavaScript `s.toLowerCase()` on the strings this library handles:
lower-case every character. -/
def jsToLowerCase (s : String) : String := ⟨s.data.map Char.toLower⟩

example : Fluid.encodeBase62 12345 = "3D7" := by decide
example : Fluid.decodeBase62 ("3D7") = Except.ok 12345 := by decide
example : Fluid.encodeBase62 0 = "0" := by decide
example : HumanIds.decodeCrockfordBase32 ("U") =
    Except.error ("Invalid Crockford Base32 character: U") := by decide
example : HumanIds.decodeCrockfordBase32 ("i") = Except.ok 1 := by decide
example : Fluid.encodeBase62 (2 ^ 128 - 1) = "7n42DGM5Tflk9n8mt7Fhc7" := by decide
example : Fluid.generateUUIDv7 1700000000000 (fun i => i * 17) =
    "018bcfe5-6800-7677-8899-aabbccddeeff" := by decide
example : (Fluid.generate ("user") 1700000000000 (fun i => i * 17)).toOption.map
    (fun id => Fluid.validate id (some ("user"))) = some true := by decide
example : Fluid.parse ("user_" ++ Fluid.encodeBase62 (2 ^ 128)) =
    Except.ok ("user", "10000000-0000-0000-0000-000000000000") := by decide
example : HumanIds.parsePrefixedId ("user_") =
    Except.ok ("user", "00000000-0000-0000-0000-000000000000") := by decide
example : Fluid.parse ("user_") =
    Except.error (ParseErr.parseFailure ("Failed to parse ID: Empty base62 part")) := by decide
example : HumanIds.generatePrefixedId ("a_b") 0 (fun _ => 0) =
    Except.ok ("a_b_1R8000000000000") := by decide
example : HumanIds.parsePrefixedId ("a_b_1R8000000000000") =
    Except.error (ParseErr.parseFailure
      ("Failed to parse ID: Invalid Crockford Base32 character: _")) := by decide

/-! ### Generic facts about the radix loops -/

theorem radixEncodeGo_zero (base : Nat) (alpha : List Char) (f : Nat) :
    radixEncodeGo base alpha f 0 = [] := by
  cases f <;> simp [radixEncodeGo]

theorem radixEncodeGo_length_le (base : Nat) (alpha : List Char) (hb : 2 ≤ base) :
    ∀ k f n, n < base ^ k → (radixEncodeGo base alpha f n).length ≤ k := by
  intro k
  induction k with
  | zero =>
    intro f n hn
    have h0 : n = 0 := by simpa using hn
    simp [h0, radixEncodeGo_zero]
  | succ k ih =>
    intro f n hn
    cases f with
    | zero => simp [radixEncodeGo]
    | succ f =>
      by_cases h0 : n = 0
      · simp [h0, radixEncodeGo_zero]
      · rw [radixEncodeGo, if_neg h0]
        have hdiv : n / base < base ^ k := by
          apply Nat.div_lt_of_lt_mul
          calc n < base ^ (k + 1) := hn
            _ = base * base ^ k := by rw [pow_succ, Nat.mul_comm]
        have := ih f (n / base) hdiv
        simp only [List.length_append, List.length_cons, List.length_nil]
        omega

theorem radixEncodeGo_length_pos (base : Nat) (alpha : List Char) (f n : Nat)
    (h0 : n ≠ 0) (hf : n ≤ f) : 0 < (radixEncodeGo base alpha f n).length := by
  cases f with
  | zero => omega
  | succ f =>
    rw [radixEncodeGo, if_neg h0]
    simp

theorem radixEncodeGo_mem (base : Nat) (alpha : List Char) (hlen : alpha.length = base)
    (hb : 2 ≤ base) : ∀ f n c, c ∈ radixEncodeGo base alpha f n → c ∈ alpha := by
  intro f
  induction f with
  | zero => simp [radixEncodeGo]
  | succ f ih =>
    intro n c hc
    rw [radixEncodeGo] at hc
    by_cases h0 : n = 0
    · simp [h0] at hc
    · rw [if_neg h0] at hc
      rcases List.mem_append.mp hc with h | h
      · exact ih _ _ h
      · have hm : n % base < alpha.length := by
          rw [hlen]; exact Nat.mod_lt _ (by omega)
        have hc' : c = alpha.getD (n % base) ' ' := by simpa using h
        rw [hc', List.getD_eq_getElem _ _ hm]
        exact List.getElem_mem hm

theorem foldl_radixEncodeGo (base : Nat) (alpha : List Char) (fd : Nat → Char → Nat)
    (hb : 2 ≤ base) (hfd : ∀ a d, d < base → fd a (alpha.getD d ' ') = a * base + d) :
    ∀ f n acc, n ≤ f →
      List.foldl fd acc (radixEncodeGo base alpha f n) =
        acc * base ^ (radixEncodeGo base alpha f n).length + n := by
  intro f
  induction f with
  | zero =>
    intro n acc hf
    have h0 : n = 0 := by omega
    simp [h0, radixEncodeGo_zero]
  | succ f ih =>
    intro n acc hf
    by_cases h0 : n = 0
    · simp [h0, radixEncodeGo_zero]
    · rw [radixEncodeGo, if_neg h0]
      have hdiv : n / base ≤ f := by
        have := Nat.div_lt_self (Nat.pos_of_ne_zero h0) (by omega : 1 < base)
        omega
      rw [List.foldl_append, ih (n / base) acc hdiv]
      simp only [List.foldl_cons, List.foldl_nil, List.length_append,
        List.length_cons, List.length_nil]
      rw [hfd _ _ (Nat.mod_lt _ (by omega))]
      rw [pow_succ]
      have := Nat.div_add_mod n base
      ring_nf
      nlinarith [Nat.div_add_mod n base]

theorem radixDecodeGo_append (base : Nat) (tbl : Char → Option Nat) (err : Char → String) :
    ∀ l1 l2 acc, radixDecodeGo base tbl err (l1 ++ l2) acc =
      match radixDecodeGo base tbl err l1 acc with
      | Except.ok a => radixDecodeGo base tbl err l2 a
      | Except.error e => Except.error e := by
  intro l1
  induction l1 with
  | nil => intro l2 acc; simp [radixDecodeGo]
  | cons c rest ih =>
    intro l2 acc
    simp only [List.cons_append, radixDecodeGo]
    cases tbl c with
    | none => simp
    | some v => simp [ih]

theorem radixDecodeGo_radixEncodeGo (base : Nat) (alpha : List Char)
    (tbl : Char → Option Nat) (err : Char → String) (hb : 2 ≤ base)
    (htbl : ∀ d, d < base → tbl (alpha.getD d ' ') = some d) :
    ∀ f n acc, n ≤ f →
      radixDecodeGo base tbl err (radixEncodeGo base alpha f n) acc =
        Except.ok (acc * base ^ (radixEncodeGo base alpha f n).length + n) := by
  intro f
  induction f with
  | zero =>
    intro n acc hf
    have h0 : n = 0 := by omega
    simp [h0, radixEncodeGo_zero, radixDecodeGo]
  | succ f ih =>
    intro n acc hf
    by_cases h0 : n = 0
    · simp [h0, radixEncodeGo_zero, radixDecodeGo]
    · rw [radixEncodeGo, if_neg h0]
      have hdiv : n / base ≤ f := by
        have := Nat.div_lt_self (Nat.pos_of_ne_zero h0) (by omega : 1 < base)
        omega
      rw [radixDecodeGo_append, ih (n / base) acc hdiv]
      simp only [radixDecodeGo, htbl _ (Nat.mod_lt _ (by omega : 0 < base))]
      simp only [List.length_append, List.length_cons, List.length_nil]
      congr 1
      rw [pow_succ]
      ring_nf
      nlinarith [Nat.div_add_mod n base]

/-! ### The two codecs and the hex codec: inverse laws and character sets -/

theorem base62_table_correct :
    ∀ d, d < 62 → Fluid.DECODE_MAP (Fluid.BASE62_ALPHABET.getD d ' ') = some d := by decide

theorem crockford_table_correct :
    ∀ d, d < 32 → HumanIds.DECODE_MAP (HumanIds.CROCKFORD_ALPHABET.getD d ' ') = some d := by
  decide

theorem hex_table_correct :
    ∀ d, d < 16 → hexVal (hexAlphabet.getD d ' ') = some d := by decide

theorem decodeBase62_encodeBase62 (n : Nat) :
    Fluid.decodeBase62 (Fluid.encodeBase62 n) = Except.ok n := by
  by_cases h0 : n = 0
  · subst h0; decide
  · rw [Fluid.encodeBase62, if_neg h0]
    have := radixDecodeGo_radixEncodeGo 62 Fluid.BASE62_ALPHABET Fluid.DECODE_MAP
      (fun c => "Invalid Base62 character: " ++ c.toString) (by omega)
      base62_table_correct n n 0 (Nat.le_refl n)
    simpa [Fluid.decodeBase62] using this

theorem decodeCrockford_encodeCrockford (n : Nat) :
    HumanIds.decodeCrockfordBase32 (HumanIds.encodeCrockfordBase32 n) = Except.ok n := by
  by_cases h0 : n = 0
  · subst h0; decide
  · rw [HumanIds.encodeCrockfordBase32, if_neg h0]
    have := radixDecodeGo_radixEncodeGo 32 HumanIds.CROCKFORD_ALPHABET HumanIds.DECODE_MAP
      (fun c => "Invalid Crockford Base32 character: " ++ c.toString) (by omega)
      crockford_table_correct n n 0 (Nat.le_refl n)
    simpa [HumanIds.decodeCrockfordBase32] using this

theorem encodeBase62_length_le (n : Nat) (hn : n < 62 ^ 22) :
    (Fluid.encodeBase62 n).length ≤ 22 := by
  by_cases h0 : n = 0
  · subst h0; decide
  · rw [Fluid.encodeBase62, if_neg h0]
    exact radixEncodeGo_length_le 62 Fluid.BASE62_ALPHABET (by omega) 22 n n hn

theorem encodeBase62_mem (n : Nat) :
    ∀ c ∈ (Fluid.encodeBase62 n).data, c ∈ Fluid.BASE62_ALPHABET := by
  by_cases h0 : n = 0
  · subst h0; decide
  · rw [Fluid.encodeBase62, if_neg h0]
    intro c hc
    exact radixEncodeGo_mem 62 Fluid.BASE62_ALPHABET (by decide) (by omega) n n c hc

theorem encodeBase62_ne_nil (n : Nat) : (Fluid.encodeBase62 n).data ≠ [] := by
  by_cases h0 : n = 0
  · subst h0; decide
  · rw [Fluid.encodeBase62, if_neg h0]
    have := radixEncodeGo_length_pos 62 Fluid.BASE62_ALPHABET n n h0 (Nat.le_refl n)
    intro hnil
    rw [show (String.mk (radixEncodeGo 62 Fluid.BASE62_ALPHABET n n)).data =
      radixEncodeGo 62 Fluid.BASE62_ALPHABET n n from rfl] at hnil
    simp [hnil] at this

theorem encodeCrockford_mem (n : Nat) :
    ∀ c ∈ (HumanIds.encodeCrockfordBase32 n).data, c ∈ HumanIds.CROCKFORD_ALPHABET := by
  by_cases h0 : n = 0
  · subst h0; decide
  · rw [HumanIds.encodeCrockfordBase32, if_neg h0]
    intro c hc
    exact radixEncodeGo_mem 32 HumanIds.CROCKFORD_ALPHABET (by decide) (by omega) n n c hc

theorem base62Alphabet_char_ok :
    ∀ c ∈ Fluid.BASE62_ALPHABET, Fluid.base62CharOk c = true ∧ ¬ c = '_' := by decide

theorem crockfordAlphabet_char_ok :
    ∀ c ∈ HumanIds.CROCKFORD_ALPHABET, ¬ c = '_' := by decide

theorem hexAlphabet_char_ok :
    ∀ c ∈ hexAlphabet, isHexDigitCI c = true ∧ ¬ c = '-' := by decide

theorem hexChar_mem (d : Nat) (hd : d < 16) : hexChar d ∈ hexAlphabet := by
  have hlen : d < hexAlphabet.length := by simpa using hd
  rw [hexChar, List.getD_eq_getElem _ _ hlen]
  exact List.getElem_mem hlen

theorem natToHex_mem (n : Nat) : ∀ c ∈ natToHex n, c ∈ hexAlphabet := by
  by_cases h0 : n = 0
  · subst h0; decide
  · rw [natToHex, if_neg h0]
    intro c hc
    exact radixEncodeGo_mem 16 hexAlphabet (by decide) (by omega) n n c hc

theorem natToHex_length_le (n : Nat) (hn : n < 16 ^ 32) : (natToHex n).length ≤ 32 := by
  by_cases h0 : n = 0
  · subst h0; decide
  · rw [natToHex, if_neg h0]
    exact radixEncodeGo_length_le 16 hexAlphabet (by omega) 32 n n hn

theorem hexToNat_natToHex (n : Nat) : hexToNat (natToHex n) = n := by
  by_cases h0 : n = 0
  · subst h0; decide
  · rw [natToHex, if_neg h0, hexToNat]
    have := foldl_radixEncodeGo 16 hexAlphabet
      (fun a c => a * 16 + (hexVal c).getD 0) (by omega)
      (fun a d hd => by
        show a * 16 + (hexVal (hexAlphabet.getD d ' ')).getD 0 = a * 16 + d
        rw [hex_table_correct d hd]
        rfl) n n 0 (Nat.le_refl n)
    simpa using this

theorem foldl_hex_replicate_zero :
    ∀ k, List.foldl (fun a c => a * 16 + (hexVal c).getD 0) 0 (List.replicate k '0') = 0 := by
  intro k
  induction k with
  | zero => rfl
  | succ k ih => simpa [List.replicate_succ] using ih

theorem hexToNat_padStart32 (l : List Char) : hexToNat (padStart32 l) = hexToNat l := by
  rw [padStart32, hexToNat, List.foldl_append, foldl_hex_replicate_zero]
  rfl

theorem padStart32_length (l : List Char) (h : l.length ≤ 32) :
    (padStart32 l).length = 32 := by
  simp [padStart32]
  omega

theorem padStart32_mem (l : List Char) : ∀ c ∈ padStart32 l, c = '0' ∨ c ∈ l := by
  intro c hc
  rcases List.mem_append.mp hc with h | h
  · exact Or.inl (List.eq_of_mem_replicate h)
  · exact Or.inr h

/-! ### Shape of the formatted UUID string -/

theorem take_block {A X : List Char} {k : Nat} (ha : A.length = k) :
    (A ++ X).take k = A := by
  rw [List.take_append_eq_append_take, ha]
  simp [List.take_of_length_le ha.le]

theorem drop_block {A X : List Char} {k : Nat} (ha : A.length = k) :
    (A ++ X).drop k = X := by
  exact List.drop_left' ha

theorem getD_block {A X : List Char} {k i : Nat} (ha : A.length = k) (hk : k ≤ i) :
    (A ++ X).getD i ' ' = X.getD (i - k) ' ' := by
  rw [List.getD_append_right _ _ _ _ (by omega), ha]

theorem drop_block_ge {A X : List Char} {k i : Nat} (ha : A.length = k) (hk : k ≤ i) :
    (A ++ X).drop i = X.drop (i - k) := by
  subst ha
  have h2 : i = A.length + (i - A.length) := by omega
  conv_lhs => rw [h2]
  rw [List.drop_append]

theorem isValidUUID_blocks (A B C D E : List Char)
    (ha : A.length = 8) (hb : B.length = 4) (hc : C.length = 4) (hd : D.length = 4)
    (he : E.length = 12)
    (hax : A.all isHexDigitCI = true) (hbx : B.all isHexDigitCI = true)
    (hcx : C.all isHexDigitCI = true) (hdx : D.all isHexDigitCI = true)
    (hex : E.all isHexDigitCI = true) :
    isValidUUID ⟨A ++ '-' :: (B ++ '-' :: (C ++ '-' :: (D ++ '-' :: E)))⟩ = true := by
  have hlen : (A ++ '-' :: (B ++ '-' :: (C ++ '-' :: (D ++ '-' :: E)))).length = 36 := by
    simp [ha, hb, hc, hd, he]
  rw [isValidUUID]
  simp only [Bool.and_eq_true, beq_iff_eq]
  refine ⟨⟨⟨⟨⟨⟨⟨⟨⟨by simp [hlen], ?_⟩, ?_⟩, ?_⟩, ?_⟩, ?_⟩, ?_⟩, ?_⟩, ?_⟩, ?_⟩
  · rw [take_block ha]
    exact hax
  · rw [getD_block ha (by omega)]
    rfl
  · rw [drop_block_ge ha (by omega)]
    simp only [show 9 - 8 = 1 from rfl, List.drop_succ_cons, List.drop_zero]
    rw [take_block hb]
    exact hbx
  · rw [getD_block ha (by omega)]
    simp only [show 13 - 8 = 5 from rfl, List.getD_cons_succ]
    rw [getD_block hb (by omega)]
    rfl
  · rw [drop_block_ge ha (by omega)]
    simp only [show 14 - 8 = 6 from rfl, List.drop_succ_cons]
    rw [drop_block_ge hb (by omega)]
    simp only [show 5 - 4 = 1 from rfl, List.drop_succ_cons, List.drop_zero]
    rw [take_block hc]
    exact hcx
  · rw [getD_block ha (by omega)]
    simp only [show 18 - 8 = 10 from rfl, List.getD_cons_succ]
    rw [getD_block hb (by omega)]
    simp only [show 9 - 4 = 5 from rfl, List.getD_cons_succ]
    rw [getD_block hc (by omega)]
    rfl
  · rw [drop_block_ge ha (by omega)]
    simp only [show 19 - 8 = 11 from rfl, List.drop_succ_cons]
    rw [drop_block_ge hb (by omega)]
    simp only [show 10 - 4 = 6 from rfl, List.drop_succ_cons]
    rw [drop_block_ge hc (by omega)]
    simp only [show 5 - 4 = 1 from rfl, List.drop_succ_cons, List.drop_zero]
    rw [take_block hd]
    exact hdx
  · rw [getD_block ha (by omega)]
    simp only [show 23 - 8 = 15 from rfl, List.getD_cons_succ]
    rw [getD_block hb (by omega)]
    simp only [show 14 - 4 = 10 from rfl, List.getD_cons_succ]
    rw [getD_block hc (by omega)]
    simp only [show 9 - 4 = 5 from rfl, List.getD_cons_succ]
    rw [getD_block hd (by omega)]
    rfl
  · rw [drop_block_ge ha (by omega)]
    simp only [show 24 - 8 = 16 from rfl, List.drop_succ_cons]
    rw [drop_block_ge hb (by omega)]
    simp only [show 15 - 4 = 11 from rfl, List.drop_succ_cons]
    rw [drop_block_ge hc (by omega)]
    simp only [show 10 - 4 = 6 from rfl, List.drop_succ_cons]
    rw [drop_block_ge hd (by omega)]
    simp only [show 5 - 4 = 1 from rfl, List.drop_succ_cons, List.drop_zero]
    rw [List.take_of_length_le he.le]
    exact hex

theorem uuidFormat_decomp (h : List Char) (hlen : h.length = 32) :
    uuidFormat h = h.take 8 ++ '-' :: ((h.drop 8).take 4 ++ '-' :: ((h.drop 12).take 4 ++
      '-' :: ((h.drop 16).take 4 ++ '-' :: h.drop 20))) := by
  have h20 : (h.drop 20).length = 12 := by simp [hlen]
  simp [uuidFormat, jsSlice, List.take_of_length_le, h20.le]
  omega

theorem filter_blocks (A B C D E : List Char)
    (hax : ∀ c ∈ A, ¬ c = '-') (hbx : ∀ c ∈ B, ¬ c = '-') (hcx : ∀ c ∈ C, ¬ c = '-')
    (hdx : ∀ c ∈ D, ¬ c = '-') (hex : ∀ c ∈ E, ¬ c = '-') :
    (A ++ '-' :: (B ++ '-' :: (C ++ '-' :: (D ++ '-' :: E)))).filter (fun c => c != '-') =
      A ++ (B ++ (C ++ (D ++ E))) := by
  have fs : ∀ X : List Char, (∀ c ∈ X, ¬ c = '-') → X.filter (fun c => c != '-') = X := by
    intro X hX
    apply List.filter_eq_self.mpr
    intro a ha
    simpa using hX a ha
  simp [List.filter_append, List.filter_cons, fs A hax, fs B hbx, fs C hcx, fs D hdx, fs E hex]

theorem reassemble_blocks (h : List Char) (hlen : h.length = 32) :
    h.take 8 ++ ((h.drop 8).take 4 ++ ((h.drop 12).take 4 ++ ((h.drop 16).take 4 ++
      h.drop 20))) = h := by
  have e16 : (h.drop 16).take 4 ++ h.drop 20 = h.drop 16 := by
    have : h.drop 20 = (h.drop 16).drop 4 := by simp [List.drop_drop]
    rw [this, List.take_append_drop]
  have e12 : (h.drop 12).take 4 ++ h.drop 16 = h.drop 12 := by
    have : h.drop 16 = (h.drop 12).drop 4 := by simp [List.drop_drop]
    rw [this, List.take_append_drop]
  have e8 : (h.drop 8).take 4 ++ h.drop 12 = h.drop 8 := by
    have : h.drop 12 = (h.drop 8).drop 4 := by simp [List.drop_drop]
    rw [this, List.take_append_drop]
  rw [e16, e12, e8, List.take_append_drop]

theorem getD_14_blocks (A B C D E : List Char) (ha : A.length = 8) (hb : B.length = 4) :
    (A ++ '-' :: (B ++ '-' :: (C ++ '-' :: (D ++ '-' :: E)))).getD 14 ' ' = (C ++ '-' ::
      (D ++ '-' :: E)).getD 0 ' ' := by
  rw [getD_block ha (by omega)]
  simp only [show 14 - 8 = 6 from rfl, List.getD_cons_succ]
  rw [getD_block hb (by omega)]
  rfl

theorem getD_19_blocks (A B C D E : List Char) (ha : A.length = 8) (hb : B.length = 4)
    (hc : C.length = 4) :
    (A ++ '-' :: (B ++ '-' :: (C ++ '-' :: (D ++ '-' :: E)))).getD 19 ' ' = (D ++ '-' ::
      E).getD 0 ' ' := by
  rw [getD_block ha (by omega)]
  simp only [show 19 - 8 = 11 from rfl, List.getD_cons_succ]
  rw [getD_block hb (by omega)]
  simp only [show 10 - 4 = 6 from rfl, List.getD_cons_succ]
  rw [getD_block hc (by omega)]
  rfl

/-! ### Hex rendering of a byte list -/

theorem toHex2_flatten_length (bs : List Nat) :
    ((bs.map toHex2).flatten).length = 2 * bs.length := by
  induction bs with
  | nil => rfl
  | cons b bs ih =>
    simp only [List.map_cons, List.flatten_cons, List.length_append, ih, List.length_cons,
      toHex2, List.length_nil]
    omega

theorem toHex2_flatten_mem (bs : List Nat) (hbs : ∀ b ∈ bs, b < 256) :
    ∀ c ∈ (bs.map toHex2).flatten, c ∈ hexAlphabet := by
  induction bs with
  | nil => simp
  | cons b bs ih =>
    intro c hc
    simp only [List.map_cons, List.flatten_cons] at hc
    rcases List.mem_append.mp hc with hc | hc
    · have hb : b < 256 := hbs b (by simp)
      simp only [toHex2, List.mem_cons, List.not_mem_nil, or_false] at hc
      rcases hc with hc | hc
      · rw [hc]
        exact hexChar_mem _ (Nat.div_lt_of_lt_mul (by omega))
      · rw [hc]
        exact hexChar_mem _ (Nat.mod_lt _ (by omega))
    · exact ih (fun x hx => hbs x (by simp [hx])) c hc

theorem foldl_hex_toHex2_flatten :
    ∀ (bs : List Nat) (acc : Nat), (∀ b ∈ bs, b < 256) →
      List.foldl (fun a c => a * 16 + (hexVal c).getD 0) acc ((bs.map toHex2).flatten) =
        List.foldl (fun a b => a * 256 + b) acc bs := by
  intro bs
  induction bs with
  | nil => intro acc h; rfl
  | cons b bs ih =>
    intro acc hb
    have hblt : b < 256 := hb b (by simp)
    simp only [List.map_cons, List.flatten_cons, List.foldl_append, toHex2, List.foldl_cons,
      List.foldl_nil]
    simp only [hexChar]
    rw [hex_table_correct (b / 16) (Nat.div_lt_of_lt_mul (by omega)),
      hex_table_correct (b % 16) (Nat.mod_lt _ (by omega))]
    show List.foldl _ ((acc * 16 + b / 16) * 16 + b % 16) _ = _
    rw [ih _ (fun x hx => hb x (by simp [hx]))]
    congr 1
    omega

theorem hexToNat_toHex2_flatten (bs : List Nat) (hbs : ∀ b ∈ bs, b < 256) :
    hexToNat ((bs.map toHex2).flatten) = beNat bs := by
  rw [hexToNat, beNat]
  exact foldl_hex_toHex2_flatten bs 0 hbs

theorem beNat_lt_aux :
    ∀ (bs : List Nat) (acc : Nat), (∀ b ∈ bs, b < 256) →
      List.foldl (fun a b => a * 256 + b) acc bs < (acc + 1) * 256 ^ bs.length := by
  intro bs
  induction bs with
  | nil => intro acc h; simp
  | cons b bs ih =>
    intro acc hb
    have hblt : b < 256 := hb b (by simp)
    simp only [List.foldl_cons, List.length_cons]
    calc List.foldl (fun a b => a * 256 + b) (acc * 256 + b) bs
        < (acc * 256 + b + 1) * 256 ^ bs.length := ih _ (fun x hx => hb x (by simp [hx]))
      _ ≤ ((acc + 1) * 256) * 256 ^ bs.length := by
          apply Nat.mul_le_mul_right
          omega
      _ = (acc + 1) * 256 ^ (bs.length + 1) := by ring
  

theorem beNat_lt (bs : List Nat) (hbs : ∀ b ∈ bs, b < 256) :
    beNat bs < 256 ^ bs.length := by
  have := beNat_lt_aux bs 0 hbs
  simpa [beNat] using this

/-! ### Locating the separator underscore -/

theorem findIdx?_underscore_append (p : Char → Bool) :
    ∀ (l1 l2 : List Char) (i : Nat), (∀ x ∈ l1, p x = false) →
      List.findIdx? p (l1 ++ l2) i = List.findIdx? p l2 (i + l1.length) := by
  intro l1
  induction l1 with
  | nil => intro l2 i h; simp
  | cons c rest ih =>
    intro l2 i h
    rw [List.cons_append, List.findIdx?_cons, if_neg (by simp [h c (by simp)])]
    rw [ih l2 (i + 1) (fun x hx => h x (by simp [hx]))]
    congr 1
    simp only [List.length_cons]
    omega

theorem first_underscore_split (pre s : List Char) (hp : ∀ x ∈ pre, ¬ x = '_') :
    List.findIdx? (fun c => c == '_') (pre ++ '_' :: s) = some pre.length := by
  rw [findIdx?_underscore_append _ pre ('_' :: s) 0 (fun x hx => by simpa using hp x hx)]
  rw [List.findIdx?_cons]
  simp

theorem first_underscore_none (l : List Char) (h : ∀ x ∈ l, ¬ x = '_') :
    List.findIdx? (fun c => c == '_') l = none :=
  List.findIdx?_eq_none_iff.mpr (fun x hx => by simpa using h x hx)

theorem last_underscore_none (l : List Char) (h : ∀ x ∈ l, ¬ x = '_') :
    lastIndexOfUnderscore l = none := by
  rw [lastIndexOfUnderscore,
    first_underscore_none l.reverse (fun x hx => h x (List.mem_reverse.mp hx))]

theorem last_underscore_split (pre s : List Char) (hs : ∀ x ∈ s, ¬ x = '_') :
    lastIndexOfUnderscore (pre ++ '_' :: s) = some pre.length := by
  rw [lastIndexOfUnderscore]
  have hrev : (pre ++ '_' :: s).reverse = s.reverse ++ '_' :: pre.reverse := by simp
  rw [hrev,
    first_underscore_split s.reverse pre.reverse (fun x hx => hs x (List.mem_reverse.mp hx))]
  simp only [List.length_append, List.length_cons, List.length_reverse]
  congr 1
  omega

/-! ### Byte-level arithmetic for the version and variant masks -/

theorem lor_112 (y : Nat) (h : y ≤ 15) : y ||| 112 = y + 112 := by
  interval_cases y <;> rfl

theorem lor_128 (y : Nat) (h : y ≤ 63) : y ||| 128 = y + 128 := by
  interval_cases y <;> rfl

theorem and255_lt (x : Nat) : x &&& 255 < 256 := by
  have h : x &&& 255 ≤ 255 := Nat.and_le_right
  omega

theorem fluid_byte6_eq (r6 : Nat) : (r6 &&& 15) ||| 112 = (r6 &&& 15) + 112 :=
  lor_112 _ Nat.and_le_right

theorem fluid_byte8_eq (r8 : Nat) : (r8 &&& 63) ||| 128 = (r8 &&& 63) + 128 :=
  lor_128 _ Nat.and_le_right

theorem fluid_uuidBytes_lt (t : Nat) (r : Nat → Nat) (hr : ∀ i, i < 16 → r i < 256) :
    ∀ b ∈ Fluid.uuidBytes t r, b < 256 := by
  intro b hb
  have h6 : (r 6 &&& 15) ||| 112 < 256 := by
    have h1 : r 6 &&& 15 ≤ 15 := Nat.and_le_right
    rw [fluid_byte6_eq]
    omega
  have h8 : (r 8 &&& 63) ||| 128 < 256 := by
    have h1 : r 8 &&& 63 ≤ 63 := Nat.and_le_right
    rw [fluid_byte8_eq]
    omega
  simp only [Fluid.uuidBytes, List.mem_cons, List.not_mem_nil, or_false] at hb
  rcases hb with rfl | rfl | rfl | rfl | rfl | rfl | rfl | rfl | rfl | rfl | rfl | rfl |
    rfl | rfl | rfl | rfl <;>
    first
      | exact and255_lt _
      | exact h6
      | exact h8
      | exact hr _ (by omega)

theorem humanIds_uuidBytes_lt (t : Nat) (r : Nat → Nat) (hr : ∀ i, i < 12 → r i < 256) :
    ∀ b ∈ HumanIds.uuidBytes t r, b < 256 := by
  intro b hb
  have h7 : (r 1 &&& 15) ||| 112 < 256 := by
    have h1 : r 1 &&& 15 ≤ 15 := Nat.and_le_right
    rw [lor_112 _ h1]
    omega
  have h8 : (r 2 &&& 63) ||| 128 < 256 := by
    have h1 : r 2 &&& 63 ≤ 63 := Nat.and_le_right
    rw [lor_128 _ h1]
    omega
  simp only [HumanIds.uuidBytes, List.mem_cons, List.not_mem_nil, or_false] at hb
  rcases hb with rfl | rfl | rfl | rfl | rfl | rfl | rfl | rfl | rfl | rfl | rfl | rfl |
    rfl | rfl | rfl | rfl <;>
    first
      | exact and255_lt _
      | exact h7
      | exact h8
      | exact hr _ (by omega)

/-! ### Case folding in the Crockford decode map -/

theorem crockford_map_toLower : ∀ c : Char, HumanIds.DECODE_MAP c = HumanIds.DECODE_MAP c.toLower := by
  intro c
  by_cases h : 65 ≤ c.toNat ∧ c.toNat ≤ 90
  · have hc : c = Char.ofNat c.toNat := (Char.ofNat_toNat c).symm
    rw [hc]
    obtain ⟨h1, h2⟩ := h
    generalize c.toNat = n at h1 h2
    interval_cases n <;> decide
  · have : c.toLower = c := by
      rw [Char.toLower]
      simp only [ge_iff_le]
      rw [if_neg h]
    rw [this]

theorem radixDecodeGo_toLower (base : Nat) (tbl : Char → Option Nat) (err : Char → String)
    (htbl : ∀ c, tbl c = tbl c.toLower) :
    ∀ (l : List Char) (acc : Nat), (∀ c ∈ l, (tbl c).isSome) →
      radixDecodeGo base tbl err (l.map Char.toLower) acc =
        radixDecodeGo base tbl err l acc := by
  intro l
  induction l with
  | nil => intro acc h; rfl
  | cons c rest ih =>
    intro acc h
    have hc := h c (by simp)
    simp only [List.map_cons, radixDecodeGo]
    rw [← htbl c]
    cases hv : tbl c with
    | none => rw [hv] at hc; simp at hc
    | some v =>
      simp only []
      exact ih (acc * base + v) (fun x hx => h x (by simp [hx]))

/-! ### The generated UUID string: validity, stripping, numeric value -/

theorem uuidFormat_hexlist_valid (h : List Char) (hlen : h.length = 32)
    (hmem : ∀ c ∈ h, c ∈ hexAlphabet) : isValidUUID ⟨uuidFormat h⟩ = true := by
  rw [uuidFormat_decomp _ hlen]
  have hsub : ∀ (a b : Nat), (List.take b (h.drop a)).all isHexDigitCI = true := by
    intro a b
    apply List.all_eq_true.mpr
    intro c hc
    exact (hexAlphabet_char_ok c (hmem c (List.drop_subset a h (List.take_subset b _ hc)))).1
  apply isValidUUID_blocks
  · simp [hlen]
  · simp [hlen]
  · simp [hlen]
  · simp [hlen]
  · simp [hlen]
  · apply List.all_eq_true.mpr
    intro c hc
    exact (hexAlphabet_char_ok c (hmem c (List.take_subset 8 _ hc))).1
  · exact hsub 8 4
  · exact hsub 12 4
  · exact hsub 16 4
  · apply List.all_eq_true.mpr
    intro c hc
    exact (hexAlphabet_char_ok c (hmem c (List.drop_subset 20 h hc))).1

theorem uuidFormat_hexlist_strip (h : List Char) (hlen : h.length = 32)
    (hmem : ∀ c ∈ h, c ∈ hexAlphabet) :
    (uuidFormat h).filter (fun c => c != '-') = h := by
  rw [uuidFormat_decomp _ hlen]
  have hnd : ∀ X : List Char, X ⊆ h → ∀ c ∈ X, ¬ c = '-' := by
    intro X hX c hc
    exact (hexAlphabet_char_ok c (hmem c (hX hc))).2
  rw [filter_blocks _ _ _ _ _
    (hnd _ (List.take_subset 8 h))
    (hnd _ (fun x hx => List.drop_subset 8 h (List.take_subset 4 _ hx)))
    (hnd _ (fun x hx => List.drop_subset 12 h (List.take_subset 4 _ hx)))
    (hnd _ (fun x hx => List.drop_subset 16 h (List.take_subset 4 _ hx)))
    (hnd _ (List.drop_subset 20 h))]
  exact reassemble_blocks h hlen

theorem sixteen_pow : (16 : Nat) ^ 32 = 2 ^ 128 := by decide

theorem two_pow_128 : (256 : Nat) ^ 16 = 2 ^ 128 := by decide

theorem padded_hex_lemmas (n : Nat) (hn : n < 2 ^ 128) :
    (padStart32 (natToHex n)).length = 32 ∧
      (∀ c ∈ padStart32 (natToHex n), c ∈ hexAlphabet) := by
  have hlen : (natToHex n).length ≤ 32 := natToHex_length_le n (by rw [sixteen_pow]; exact hn)
  refine ⟨padStart32_length _ hlen, ?_⟩
  intro c hc
  rcases padStart32_mem _ c hc with rfl | hcm
  · decide
  · exact natToHex_mem n c hcm

/-! ### Evaluating the strict variant's generate and parse on their outputs -/

theorem fluid_generate_eq (p : String) (t : Nat) (r : Nat → Nat)
    (hp : Fluid.prefixOk p = true) :
    Fluid.generate p t r =
      Except.ok (p ++ "_" ++ Fluid.uuidToBase62 (Fluid.generateUUIDv7 t r)) := by
  rw [Fluid.generate, Fluid.validatePrefix, if_pos hp]
  rfl

theorem fluid_uuidToBase62_gen (t : Nat) (r : Nat → Nat) (hr : ∀ i, i < 16 → r i < 256) :
    Fluid.uuidToBase62 (Fluid.generateUUIDv7 t r) =
      Fluid.encodeBase62 (beNat (Fluid.uuidBytes t r)) := by
  have hlt := fluid_uuidBytes_lt t r hr
  have h32 : (((Fluid.uuidBytes t r).map toHex2).flatten).length = 32 := by
    rw [toHex2_flatten_length]
    rfl
  rw [Fluid.uuidToBase62, Fluid.generateUUIDv7]
  rw [show (String.mk (uuidFormat ((Fluid.uuidBytes t r).map toHex2).flatten)).data =
    uuidFormat ((Fluid.uuidBytes t r).map toHex2).flatten from rfl]
  rw [uuidFormat_hexlist_strip _ h32 (toHex2_flatten_mem _ hlt)]
  rw [hexToNat_toHex2_flatten _ hlt]

theorem fluid_uuidNum_lt (t : Nat) (r : Nat → Nat) (hr : ∀ i, i < 16 → r i < 256) :
    beNat (Fluid.uuidBytes t r) < 2 ^ 128 := by
  have := beNat_lt (Fluid.uuidBytes t r) (fluid_uuidBytes_lt t r hr)
  rw [show (Fluid.uuidBytes t r).length = 16 from rfl, two_pow_128] at this
  exact this

theorem fluid_parse_eq_of_split (id : String) (k : Nat)
    (h : lastIndexOfUnderscore id.data = some k) :
    Fluid.parse id =
      match Fluid.parseInner ⟨id.data.take k⟩ ⟨id.data.drop (k + 1)⟩ with
      | Except.ok r => Except.ok r
      | Except.error m => Except.error (ParseErr.parseFailure ("Failed to parse ID: " ++ m)) := by
  rw [Fluid.parse, h]

theorem fluid_parse_eq_of_nosplit (id : String)
    (h : lastIndexOfUnderscore id.data = none) :
    Fluid.parse id =
      Except.error (ParseErr.missingSeparator ("Invalid prefixed ID format: " ++ id)) := by
  rw [Fluid.parse, h]

theorem humanIds_parse_eq_of_split (id : String) (k : Nat)
    (h : List.findIdx? (fun c => c == '_') id.data = some k) :
    HumanIds.parsePrefixedId id =
      match HumanIds.parseInner ⟨id.data.drop (k + 1)⟩ with
      | Except.ok uuid => Except.ok (⟨id.data.take k⟩, uuid)
      | Except.error m => Except.error (ParseErr.parseFailure ("Failed to parse ID: " ++ m)) := by
  rw [HumanIds.parsePrefixedId, h]

theorem humanIds_parse_eq_of_nosplit (id : String)
    (h : List.findIdx? (fun c => c == '_') id.data = none) :
    HumanIds.parsePrefixedId id =
      Except.error (ParseErr.missingSeparator ("Invalid prefixed ID format: " ++ id)) := by
  rw [HumanIds.parsePrefixedId, h]

theorem fluid_parseInner_eval (p enc : String) (n : Nat)
    (hp : Fluid.prefixOk p = true)
    (hne : ¬ enc.data.length = 0)
    (hok : enc.data.all Fluid.base62CharOk = true)
    (hdec : Fluid.decodeBase62 enc = Except.ok n)
    (hu : isValidUUID ⟨uuidFormat (padStart32 (natToHex n))⟩ = true) :
    Fluid.parseInner p enc = Except.ok (p, ⟨uuidFormat (padStart32 (natToHex n))⟩) := by
  rw [Fluid.parseInner]
  simp only [Fluid.validatePrefix, if_pos hp, Fluid.validateBase62, if_neg hne, if_pos hok,
    Fluid.base62ToUUID, hdec, Except.map, bind, Except.bind, pure, Except.pure, hu, if_pos]

theorem humanIds_parseInner_eval (enc : String) (n : Nat)
    (hdec : HumanIds.decodeCrockfordBase32 enc = Except.ok n)
    (hu : isValidUUID ⟨uuidFormat (padStart32 (natToHex n))⟩ = true) :
    HumanIds.parseInner enc = Except.ok ⟨uuidFormat (padStart32 (natToHex n))⟩ := by
  rw [HumanIds.parseInner]
  simp only [HumanIds.crockfordBase32ToUuid, hdec, Except.map, bind, Except.bind, pure,
    Except.pure, hu, if_pos]

theorem fluid_roundtrip (p : String) (n : Nat) (hp : Fluid.prefixOk p = true)
    (hn : n < 2 ^ 128) :
    Fluid.parse (p ++ "_" ++ Fluid.encodeBase62 n) =
      Except.ok (p, ⟨uuidFormat (padStart32 (natToHex n))⟩) ∧
    Fluid.uuidToBase62 ⟨uuidFormat (padStart32 (natToHex n))⟩ = Fluid.encodeBase62 n := by
  obtain ⟨hplen, hpmem⟩ := padded_hex_lemmas n hn
  have hu : isValidUUID ⟨uuidFormat (padStart32 (natToHex n))⟩ = true :=
    uuidFormat_hexlist_valid _ hplen hpmem
  have hdata : (p ++ "_" ++ Fluid.encodeBase62 n).data =
      p.data ++ '_' :: (Fluid.encodeBase62 n).data := by
    simp [String.data_append]
  have hencmem := encodeBase62_mem n
  have hunder : ∀ x ∈ (Fluid.encodeBase62 n).data, ¬ x = '_' :=
    fun x hx => (base62Alphabet_char_ok x (hencmem x hx)).2
  have hsplit : lastIndexOfUnderscore (p ++ "_" ++ Fluid.encodeBase62 n).data =
      some p.data.length := by
    rw [hdata]
    exact last_underscore_split _ _ hunder
  constructor
  · rw [fluid_parse_eq_of_split _ _ hsplit]
    have htake : (p ++ "_" ++ Fluid.encodeBase62 n).data.take p.data.length = p.data := by
      rw [hdata]
      exact take_block rfl
    have hdrop : (p ++ "_" ++ Fluid.encodeBase62 n).data.drop (p.data.length + 1) =
        (Fluid.encodeBase62 n).data := by
      rw [hdata, List.append_cons]
      exact drop_block (by simp)
    rw [htake, hdrop]
    have hinner : Fluid.parseInner ⟨p.data⟩ ⟨(Fluid.encodeBase62 n).data⟩ =
        Except.ok (p, ⟨uuidFormat (padStart32 (natToHex n))⟩) := by
      show Fluid.parseInner p (Fluid.encodeBase62 n) = _
      exact fluid_parseInner_eval p _ n hp
        (fun h => encodeBase62_ne_nil n (List.length_eq_zero.mp h))
        (List.all_eq_true.mpr fun c hc => (base62Alphabet_char_ok c (hencmem c hc)).1)
        (decodeBase62_encodeBase62 n) hu
    rw [hinner]
  · rw [Fluid.uuidToBase62]
    rw [show (String.mk (uuidFormat (padStart32 (natToHex n)))).data =
      uuidFormat (padStart32 (natToHex n)) from rfl]
    rw [uuidFormat_hexlist_strip _ hplen hpmem, hexToNat_padStart32, hexToNat_natToHex]

theorem humanIds_roundtrip (p : String) (n : Nat) (hnp : ∀ x ∈ p.data, ¬ x = '_')
    (hn : n < 2 ^ 128) :
    HumanIds.parsePrefixedId (p ++ "_" ++ HumanIds.encodeCrockfordBase32 n) =
      Except.ok (p, ⟨uuidFormat (padStart32 (natToHex n))⟩) ∧
    HumanIds.uuidToCrockfordBase32 ⟨uuidFormat (padStart32 (natToHex n))⟩ =
      HumanIds.encodeCrockfordBase32 n := by
  obtain ⟨hplen, hpmem⟩ := padded_hex_lemmas n hn
  have hu : isValidUUID ⟨uuidFormat (padStart32 (natToHex n))⟩ = true :=
    uuidFormat_hexlist_valid _ hplen hpmem
  have hdata : (p ++ "_" ++ HumanIds.encodeCrockfordBase32 n).data =
      p.data ++ '_' :: (HumanIds.encodeCrockfordBase32 n).data := by
    simp [String.data_append]
  have hsplit : List.findIdx? (fun c => c == '_')
      (p ++ "_" ++ HumanIds.encodeCrockfordBase32 n).data = some p.data.length := by
    rw [hdata]
    exact first_underscore_split _ _ hnp
  constructor
  · rw [humanIds_parse_eq_of_split _ _ hsplit]
    have htake : (p ++ "_" ++ HumanIds.encodeCrockfordBase32 n).data.take p.data.length =
        p.data := by
      rw [hdata]
      exact take_block rfl
    have hdrop : (p ++ "_" ++ HumanIds.encodeCrockfordBase32 n).data.drop
        (p.data.length + 1) = (HumanIds.encodeCrockfordBase32 n).data := by
      rw [hdata, List.append_cons]
      exact drop_block (by simp)
    rw [htake, hdrop]
    have hinner : HumanIds.parseInner ⟨(HumanIds.encodeCrockfordBase32 n).data⟩ =
        Except.ok ⟨uuidFormat (padStart32 (natToHex n))⟩ := by
      show HumanIds.parseInner (HumanIds.encodeCrockfordBase32 n) = _
      exact humanIds_parseInner_eval _ n (decodeCrockford_encodeCrockford n) hu
    rw [hinner]
  · rw [HumanIds.uuidToCrockfordBase32]
    rw [show (String.mk (uuidFormat (padStart32 (natToHex n)))).data =
      uuidFormat (padStart32 (natToHex n)) from rfl]
    rw [uuidFormat_hexlist_strip _ hplen hpmem, hexToNat_padStart32, hexToNat_natToHex]

theorem humanIds_uuidToCrockford_gen (t : Nat) (r : Nat → Nat)
    (hr : ∀ i, i < 12 → r i < 256) :
    HumanIds.uuidToCrockfordBase32 (HumanIds.generateUUIDv7 t r) =
      HumanIds.encodeCrockfordBase32 (beNat (HumanIds.uuidBytes t r)) := by
  have hlt := humanIds_uuidBytes_lt t r hr
  have h32 : (((HumanIds.uuidBytes t r).map toHex2).flatten).length = 32 := by
    rw [toHex2_flatten_length]
    rfl
  rw [HumanIds.uuidToCrockfordBase32, HumanIds.generateUUIDv7]
  rw [show (String.mk (uuidFormat ((HumanIds.uuidBytes t r).map toHex2).flatten)).data =
    uuidFormat ((HumanIds.uuidBytes t r).map toHex2).flatten from rfl]
  rw [uuidFormat_hexlist_strip _ h32 (toHex2_flatten_mem _ hlt)]
  rw [hexToNat_toHex2_flatten _ hlt]

theorem humanIds_uuidNum_lt (t : Nat) (r : Nat → Nat) (hr : ∀ i, i < 12 → r i < 256) :
    beNat (HumanIds.uuidBytes t r) < 2 ^ 128 := by
  have := beNat_lt (HumanIds.uuidBytes t r) (humanIds_uuidBytes_lt t r hr)
  rw [show (HumanIds.uuidBytes t r).length = 16 from rfl, two_pow_128] at this
  exact this

/-! ### Byte-wise ordering of the embedded timestamps -/

theorem and255_eq_mod (x : Nat) : x &&& 255 = x % 256 :=
  Nat.and_pow_two_sub_one_eq_mod x 8

theorem byte_step (a b s : Nat) (hab : a ≤ b)
    (hq : a / 2 ^ (s + 8) = b / 2 ^ (s + 8)) :
    a / 2 ^ s % 256 < b / 2 ^ s % 256 ∨
      (a / 2 ^ s % 256 = b / 2 ^ s % 256 ∧ a / 2 ^ s = b / 2 ^ s) := by
  have hda : a / 2 ^ s / 256 = a / 2 ^ (s + 8) := by
    rw [Nat.div_div_eq_div_mul, pow_add]
    norm_num
  have hdb : b / 2 ^ s / 256 = b / 2 ^ (s + 8) := by
    rw [Nat.div_div_eq_div_mul, pow_add]
    norm_num
  have hle : a / 2 ^ s ≤ b / 2 ^ s := Nat.div_le_div_right hab
  have h1 := Nat.div_add_mod (a / 2 ^ s) 256
  have h2 := Nat.div_add_mod (b / 2 ^ s) 256
  omega

theorem tsBytes_lex (a b : Nat) (hab : a < b) (hb48 : b < 2 ^ 48) :
    List.Lex (· < ·)
      [a / 2 ^ 40 % 256, a / 2 ^ 32 % 256, a / 2 ^ 24 % 256,
        a / 2 ^ 16 % 256, a / 2 ^ 8 % 256, a % 256]
      [b / 2 ^ 40 % 256, b / 2 ^ 32 % 256, b / 2 ^ 24 % 256,
        b / 2 ^ 16 % 256, b / 2 ^ 8 % 256, b % 256] := by
  have h48 : a / 2 ^ 48 = b / 2 ^ 48 := by
    rw [Nat.div_eq_of_lt (lt_trans hab hb48), Nat.div_eq_of_lt hb48]
  rcases byte_step a b 40 hab.le h48 with h | ⟨hmod, hdiv⟩
  · exact List.Lex.rel h
  rw [hmod]
  apply List.Lex.cons
  rcases byte_step a b 32 hab.le hdiv with h | ⟨hmod2, hdiv2⟩
  · exact List.Lex.rel h
  rw [hmod2]
  apply List.Lex.cons
  rcases byte_step a b 24 hab.le hdiv2 with h | ⟨hmod3, hdiv3⟩
  · exact List.Lex.rel h
  rw [hmod3]
  apply List.Lex.cons
  rcases byte_step a b 16 hab.le hdiv3 with h | ⟨hmod4, hdiv4⟩
  · exact List.Lex.rel h
  rw [hmod4]
  apply List.Lex.cons
  rcases byte_step a b 8 hab.le hdiv4 with h | ⟨hmod5, hdiv5⟩
  · exact List.Lex.rel h
  rw [hmod5]
  apply List.Lex.cons
  have hlast := byte_step a b 0 hab.le (by simpa using hdiv5)
  simp only [pow_zero, Nat.div_one] at hlast
  rcases hlast with h | ⟨hmod6, hdiv6⟩
  · exact List.Lex.rel h
  · omega

theorem lex_append_of_lex {α : Type} {r : α → α → Prop} :
    ∀ {l1 l2 : List α}, List.Lex r l1 l2 → l1.length = l2.length →
      ∀ (s1 s2 : List α), List.Lex r (l1 ++ s1) (l2 ++ s2) := by
  intro l1 l2 h
  induction h with
  | nil => intro hlen; simp at hlen
  | rel hr => intro hlen s1 s2; exact List.Lex.rel hr
  | cons h ih => intro hlen s1 s2; exact List.Lex.cons (ih (by simpa using hlen) s1 s2)

theorem fluid_uuidBytes_lex (t1 t2 : Nat) (r1 r2 : Nat → Nat)
    (h12 : t1 < t2) (h48 : t2 < 2 ^ 48) :
    List.Lex (· < ·) (Fluid.uuidBytes t1 r1) (Fluid.uuidBytes t2 r2) := by
  have hts := tsBytes_lex t1 t2 h12 h48
  have happ := lex_append_of_lex hts rfl
    [(r1 6 &&& 15) ||| 112, r1 7, (r1 8 &&& 63) ||| 128, r1 9, r1 10, r1 11,
      r1 12, r1 13, r1 14, r1 15]
    [(r2 6 &&& 15) ||| 112, r2 7, (r2 8 &&& 63) ||| 128, r2 9, r2 10, r2 11,
      r2 12, r2 13, r2 14, r2 15]
  simp only [Fluid.uuidBytes, Nat.shiftRight_eq_div_pow, and255_eq_mod]
  simpa using happ

theorem humanIds_uuidBytes_lex (t1 t2 : Nat) (r1 r2 : Nat → Nat)
    (h12 : t1 < t2) (h48 : t2 < 2 ^ 48) :
    List.Lex (· < ·) (HumanIds.uuidBytes t1 r1) (HumanIds.uuidBytes t2 r2) := by
  have hts := tsBytes_lex t1 t2 h12 h48
  have happ := lex_append_of_lex hts rfl
    [r1 0, (r1 1 &&& 15) ||| 112, (r1 2 &&& 63) ||| 128, r1 3, r1 4, r1 5,
      r1 6, r1 7, r1 8, r1 9]
    [r2 0, (r2 1 &&& 15) ||| 112, (r2 2 &&& 63) ||| 128, r2 3, r2 4, r2 5,
      r2 6, r2 7, r2 8, r2 9]
  simp only [HumanIds.uuidBytes, Nat.shiftRight_eq_div_pow, and255_eq_mod]
  simpa using happ

/-! ### Version and variant digits of the generated UUID string -/

theorem fluid_uuid_char14 (t : Nat) (r : Nat → Nat) :
    (Fluid.generateUUIDv7 t r).data.getD 14 ' ' = '7' := by
  show hexChar (((r 6 &&& 15) ||| 112) / 16) = '7'
  have hx : r 6 &&& 15 ≤ 15 := Nat.and_le_right
  have h7 : ((r 6 &&& 15) ||| 112) / 16 = 7 := by
    rw [fluid_byte6_eq]
    omega
  rw [h7]
  decide

theorem fluid_uuid_char19 (t : Nat) (r : Nat → Nat) :
    (Fluid.generateUUIDv7 t r).data.getD 19 ' ' ∈ (['8', '9', 'a', 'b'] : List Char) := by
  show hexChar (((r 8 &&& 63) ||| 128) / 16) ∈ (['8', '9', 'a', 'b'] : List Char)
  have hx : r 8 &&& 63 ≤ 63 := Nat.and_le_right
  have h8 : ((r 8 &&& 63) ||| 128) / 16 = (r 8 &&& 63) / 16 + 8 := by
    rw [fluid_byte8_eq]
    omega
  have hq : (r 8 &&& 63) / 16 ≤ 3 := by omega
  rw [h8]
  interval_cases h : (r 8 &&& 63) / 16 <;> decide

theorem humanIds_uuid_char16 (t : Nat) (r : Nat → Nat) :
    (HumanIds.generateUUIDv7 t r).data.getD 16 ' ' = '7' := by
  show hexChar (((r 1 &&& 15) ||| 112) / 16) = '7'
  have hx : r 1 &&& 15 ≤ 15 := Nat.and_le_right
  have h7 : ((r 1 &&& 15) ||| 112) / 16 = 7 := by
    rw [lor_112 _ hx]
    omega
  rw [h7]
  decide

theorem humanIds_uuid_char19 (t : Nat) (r : Nat → Nat) :
    (HumanIds.generateUUIDv7 t r).data.getD 19 ' ' ∈ (['8', '9', 'a', 'b'] : List Char) := by
  show hexChar (((r 2 &&& 63) ||| 128) / 16) ∈ (['8', '9', 'a', 'b'] : List Char)
  have hx : r 2 &&& 63 ≤ 63 := Nat.and_le_right
  have h8 : ((r 2 &&& 63) ||| 128) / 16 = (r 2 &&& 63) / 16 + 8 := by
    rw [lor_128 _ hx]
    omega
  have hq : (r 2 &&& 63) / 16 ≤ 3 := by omega
  rw [h8]
  interval_cases h : (r 2 &&& 63) / 16 <;> decide

/-! ### Small helpers for the claim statements -/

theorem prefixOk_length (p : String) (hp : Fluid.prefixOk p = true) :
    1 ≤ p.data.length ∧ p.data.length ≤ 40 := by
  rw [Fluid.prefixOk] at hp
  simp only [Bool.and_eq_true, decide_eq_true_eq] at hp
  exact ⟨hp.1.1, hp.1.2⟩

theorem two_pow_128_le_62_pow_22 : (2 : Nat) ^ 128 ≤ 62 ^ 22 := by decide

theorem fluid_generate_invalid (p : String) (t : Nat) (r : Nat → Nat)
    (hp : ¬ Fluid.prefixOk p = true) :
    Fluid.generate p t r = Except.error ("invalid prefix: " ++ p) := by
  rw [Fluid.generate, Fluid.validatePrefix, if_neg hp]
  rfl

/-! ### The claims -/

/-- Claim C2: for every integer `0 ≤ n < 2^128`, `decode(encode(n)) = n` holds in
both the Crockford Base32 codec and the Base62 codec.  (The proof does not even
need the upper bound; the inverse law holds for every natural number.) -/
theorem claim_c2_codec_inverse (n : Nat) (hn : n < 2 ^ 128) :
    Fluid.decodeBase62 (Fluid.encodeBase62 n) = Except.ok n ∧
    HumanIds.decodeCrockfordBase32 (HumanIds.encodeCrockfordBase32 n) = Except.ok n :=
  ⟨decodeBase62_encodeBase62 n, decodeCrockford_encodeCrockford n⟩

/-- Witness for C2 at `n = 12345`. -/
theorem claim_c2_codec_inverse_witness :
    12345 < 2 ^ 128 ∧
      (Fluid.decodeBase62 (Fluid.encodeBase62 12345) = Except.ok 12345 ∧
        HumanIds.decodeCrockfordBase32 (HumanIds.encodeCrockfordBase32 12345) =
          Except.ok 12345) :=
  ⟨by decide, claim_c2_codec_inverse 12345 (by decide)⟩

/-- Claim C3 (code bug): the claim says an id whose trailing encoded part decodes
to a value `≥ 2^128` is rejected by `parse` because the decoded value does not
form a well-shaped canonical UUID.  In fact both variants silently truncate: the
hex rendering of the oversized value is longer than 32 digits, `padStart(32)`
does nothing, and the fixed `slice(0,8)/.../slice(20,32)` template keeps only the
first 32 hex digits, so the shape check passes and `parse` succeeds with a
truncated UUID.  Here `encodeBase62 (2^128)` (respectively the Base32 encoding)
decodes to exactly `2^128`, whose 33-digit hex form `1000...0` is truncated to
the UUID `10000000-0000-0000-0000-000000000000`. -/
theorem claim_c3_overflow_accepted :
    Fluid.parse ("user_" ++ Fluid.encodeBase62 (2 ^ 128)) =
      Except.ok ("user", "10000000-0000-0000-0000-000000000000") ∧
    Fluid.decodeBase62 (Fluid.encodeBase62 (2 ^ 128)) = Except.ok (2 ^ 128) ∧
    HumanIds.parsePrefixedId ("user_" ++ HumanIds.encodeCrockfordBase32 (2 ^ 128)) =
      Except.ok ("user", "10000000-0000-0000-0000-000000000000") :=
  ⟨by decide, decodeBase62_encodeBase62 (2 ^ 128), by decide⟩

/-- Claim C6: Crockford confusion folding.  `I`, `L` and `1` (in both cases)
decode to 1, `O` and `0` (in both cases) decode to 0, and decoding is invariant
under lower-casing for every string made of characters of the decode table. -/
theorem claim_c6_confusion_folding :
    (HumanIds.decodeCrockfordBase32 ("I") = Except.ok 1 ∧
      HumanIds.decodeCrockfordBase32 ("i") = Except.ok 1 ∧
      HumanIds.decodeCrockfordBase32 ("L") = Except.ok 1 ∧
      HumanIds.decodeCrockfordBase32 ("l") = Except.ok 1 ∧
      HumanIds.decodeCrockfordBase32 ("1") = Except.ok 1 ∧
      HumanIds.decodeCrockfordBase32 ("O") = Except.ok 0 ∧
      HumanIds.decodeCrockfordBase32 ("o") = Except.ok 0 ∧
      HumanIds.decodeCrockfordBase32 ("0") = Except.ok 0) ∧
    ∀ s : String, (∀ c ∈ s.data, (HumanIds.DECODE_MAP c).isSome) →
      HumanIds.decodeCrockfordBase32 s =
        HumanIds.decodeCrockfordBase32 (jsToLowerCase s) := by
  refine ⟨by decide, ?_⟩
  intro s hs
  have := radixDecodeGo_toLower 32 HumanIds.DECODE_MAP
    (fun c => "Invalid Crockford Base32 character: " ++ c.toString)
    crockford_map_toLower s.data 0 hs
  rw [HumanIds.decodeCrockfordBase32, HumanIds.decodeCrockfordBase32]
  exact this.symm

/-- Witness for C6's universally quantified part at the mixed-case `"AbC1"`. -/
theorem claim_c6_confusion_folding_witness :
    HumanIds.decodeCrockfordBase32 ("AbC1") =
      HumanIds.decodeCrockfordBase32 (jsToLowerCase ("AbC1")) :=
  claim_c6_confusion_folding.2 ("AbC1") (by decide)

/-- Claim C7: modelling UUID generation as a function of the millisecond
timestamp and the random bytes, two values whose timestamps satisfy
`t1 < t2 < 2^48` are byte-wise lexicographically ordered, for any random bytes,
in both variants. -/
theorem claim_c7_timestamp_ordering (t1 t2 : Nat) (r1 r2 : Nat → Nat)
    (h12 : t1 < t2) (h48 : t2 < 2 ^ 48) :
    List.Lex (· < ·) (Fluid.uuidBytes t1 r1) (Fluid.uuidBytes t2 r2) ∧
    List.Lex (· < ·) (HumanIds.uuidBytes t1 r1) (HumanIds.uuidBytes t2 r2) :=
  ⟨fluid_uuidBytes_lex t1 t2 r1 r2 h12 h48, humanIds_uuidBytes_lex t1 t2 r1 r2 h12 h48⟩

/-- Witness for C7 at `t1 = 1000`, `t2 = 2000`, all-zero random bytes. -/
theorem claim_c7_timestamp_ordering_witness :
    List.Lex (· < ·) (Fluid.uuidBytes 1000 (fun _ => 0)) (Fluid.uuidBytes 2000 (fun _ => 0)) ∧
    List.Lex (· < ·) (HumanIds.uuidBytes 1000 (fun _ => 0))
      (HumanIds.uuidBytes 2000 (fun _ => 0)) :=
  claim_c7_timestamp_ordering 1000 2000 (fun _ => 0) (fun _ => 0) (by decide) (by decide)

/-- Claim C8 (code bug): the claim says every generated UUID has hex digit `7`
at canonical position 14 and one of `8,9,a,b` at position 19.  This holds for
the strict (Base62) variant's generator for every timestamp and all random
bytes.  The permissive (Base32) variant's generator, however, ORs the version
nibble `0x70` into byte index 7 instead of byte index 6, so its `7` lands at
string position 16 while position 14 holds the top nibble of the untouched
random byte 6 — with all-zero random bytes, position 14 is `'0'`, not `'7'`.
The variant digit at position 19 is correct in both variants. -/
theorem claim_c8_version_variant_bits :
    (∀ (t : Nat) (r : Nat → Nat),
      (Fluid.generateUUIDv7 t r).data.getD 14 ' ' = '7' ∧
      (Fluid.generateUUIDv7 t r).data.getD 19 ' ' ∈ (['8', '9', 'a', 'b'] : List Char)) ∧
    (HumanIds.generateUUIDv7 0 (fun _ => 0)).data.getD 14 ' ' = '0' ∧
    ¬ (HumanIds.generateUUIDv7 0 (fun _ => 0)).data.getD 14 ' ' = '7' ∧
    (∀ (t : Nat) (r : Nat → Nat),
      (HumanIds.generateUUIDv7 t r).data.getD 16 ' ' = '7' ∧
      (HumanIds.generateUUIDv7 t r).data.getD 19 ' ' ∈ (['8', '9', 'a', 'b'] : List Char)) :=
  ⟨fun t r => ⟨fluid_uuid_char14 t r, fluid_uuid_char19 t r⟩, by decide, by decide,
    fun t r => ⟨humanIds_uuid_char16 t r, humanIds_uuid_char19 t r⟩⟩

/-- Claim C9: an id without any underscore fails in both variants with the
missing-separator error — produced before any decoding is attempted — and that
error is distinct from the `ParseFailure` wrapper used after the split. -/
theorem claim_c9_missing_separator (id : String) (h : ∀ x ∈ id.data, ¬ x = '_') :
    Fluid.parse id =
      Except.error (ParseErr.missingSeparator ("Invalid prefixed ID format: " ++ id)) ∧
    HumanIds.parsePrefixedId id =
      Except.error (ParseErr.missingSeparator ("Invalid prefixed ID format: " ++ id)) ∧
    ∀ m m' : String, ¬ ParseErr.missingSeparator m = ParseErr.parseFailure m' := by
  refine ⟨?_, ?_, fun m m' => by simp⟩
  · exact fluid_parse_eq_of_nosplit id (last_underscore_none id.data h)
  · exact humanIds_parse_eq_of_nosplit id (first_underscore_none id.data h)

/-- Witness for C9 at the literal `"invalid"`. -/
theorem claim_c9_missing_separator_witness :
    Fluid.parse ("invalid") =
      Except.error (ParseErr.missingSeparator ("Invalid prefixed ID format: invalid")) ∧
    HumanIds.parsePrefixedId ("invalid") =
      Except.error (ParseErr.missingSeparator ("Invalid prefixed ID format: invalid")) ∧
    ¬ ParseErr.missingSeparator ("Invalid prefixed ID format: invalid") =
        ParseErr.parseFailure ("Failed to parse ID: x") :=
  ⟨(claim_c9_missing_separator ("invalid") (by decide)).1,
    (claim_c9_missing_separator ("invalid") (by decide)).2.1,
    (claim_c9_missing_separator ("invalid") (by decide)).2.2
      ("Invalid prefixed ID format: invalid") ("Failed to parse ID: x")⟩

/-- Claim C10: in the permissive Base32 variant, parsing an id with an empty
encoded part (`"user_"`) succeeds with the all-zero UUID because decoding the
empty string yields 0, while the strict Base62 variant rejects the empty
encoded part (inside the `ParseFailure` wrapper). -/
theorem claim_c10_empty_encoded_part :
    HumanIds.parsePrefixedId ("user_") =
      Except.ok ("user", "00000000-0000-0000-0000-000000000000") ∧
    HumanIds.decodeCrockfordBase32 ("") = Except.ok 0 ∧
    Fluid.parse ("user_") =
      Except.error (ParseErr.parseFailure ("Failed to parse ID: Empty base62 part")) :=
  ⟨by decide, by decide, by decide⟩

/-- Claim C1 counterexample: in the permissive Base32 variant the prefix
`"a_b"` is accepted by the variant's prefix rule (any string is accepted), the
composed id is returned, but parsing it does not return the prefix `"a_b"`:
the split happens at the *first* underscore, so decoding hits the second
underscore and the parse throws the wrapped failure. -/
theorem claim_c1_counterexample :
    HumanIds.generatePrefixedId ("a_b") 0 (fun _ => 0) =
      Except.ok ("a_b_1R8000000000000") ∧
    HumanIds.parsePrefixedId ("a_b_1R8000000000000") =
      Except.error (ParseErr.parseFailure
        ("Failed to parse ID: Invalid Crockford Base32 character: _")) :=
  ⟨by decide, by decide⟩

/-- Claim C1 (amended): the round-trip holds in the strict Base62 variant for
every accepted prefix, every timestamp and all random bytes; in the permissive
Base32 variant it holds for every prefix that contains no underscore (the
variant splits at the first underscore, so underscore-bearing prefixes break
the round-trip, as the counterexample shows).  The parse returns exactly the
original prefix together with a canonical UUID string, and re-encoding that
UUID through the variant's codec reproduces the encoded suffix. -/
theorem claim_c1_roundtrip :
    (∀ (p : String) (t : Nat) (r : Nat → Nat),
      Fluid.prefixOk p = true → (∀ i, i < 16 → r i < 256) →
      Fluid.generate p t r =
        Except.ok (p ++ "_" ++ Fluid.encodeBase62 (beNat (Fluid.uuidBytes t r))) ∧
      Fluid.parse (p ++ "_" ++ Fluid.encodeBase62 (beNat (Fluid.uuidBytes t r))) =
        Except.ok (p, ⟨uuidFormat (padStart32 (natToHex (beNat (Fluid.uuidBytes t r))))⟩) ∧
      Fluid.uuidToBase62 ⟨uuidFormat (padStart32 (natToHex (beNat (Fluid.uuidBytes t r))))⟩ =
        Fluid.encodeBase62 (beNat (Fluid.uuidBytes t r))) ∧
    (∀ (p : String) (t : Nat) (r : Nat → Nat),
      (∀ x ∈ p.data, ¬ x = '_') → (∀ i, i < 12 → r i < 256) →
      ∀ id, HumanIds.generatePrefixedId p t r = Except.ok id →
      id = p ++ "_" ++ HumanIds.encodeCrockfordBase32 (beNat (HumanIds.uuidBytes t r)) ∧
      HumanIds.parsePrefixedId id =
        Except.ok (p, ⟨uuidFormat (padStart32 (natToHex (beNat (HumanIds.uuidBytes t r))))⟩) ∧
      HumanIds.uuidToCrockfordBase32
          ⟨uuidFormat (padStart32 (natToHex (beNat (HumanIds.uuidBytes t r))))⟩ =
        HumanIds.encodeCrockfordBase32 (beNat (HumanIds.uuidBytes t r))) := by
  constructor
  · intro p t r hp hr
    have hn := fluid_uuidNum_lt t r hr
    refine ⟨?_, (fluid_roundtrip p _ hp hn).1, (fluid_roundtrip p _ hp hn).2⟩
    rw [fluid_generate_eq p t r hp, fluid_uuidToBase62_gen t r hr]
  · intro p t r hp hr id hgen
    have hn := humanIds_uuidNum_lt t r hr
    have hid : id =
        p ++ "_" ++ HumanIds.encodeCrockfordBase32 (beNat (HumanIds.uuidBytes t r)) := by
      rw [HumanIds.generatePrefixedId] at hgen
      by_cases hc : 255 <
          (p ++ "_" ++ HumanIds.uuidToCrockfordBase32 (HumanIds.generateUUIDv7 t r)).length
      · rw [if_pos hc] at hgen
        simp at hgen
      · rw [if_neg hc] at hgen
        simp only [Except.ok.injEq] at hgen
        rw [← hgen, humanIds_uuidToCrockford_gen t r hr]
    subst hid
    exact ⟨rfl, (humanIds_roundtrip p _ hp hn).1, (humanIds_roundtrip p _ hp hn).2⟩

/-- Witness for C1 at the prefix `"user"` (strict variant) and the
underscore-free prefix `"live"` (permissive variant), with concrete timestamp
and random bytes. -/
theorem claim_c1_roundtrip_witness :
    (Fluid.generate ("user") 1700000000000 (fun i => i * 17) =
      Except.ok ("user" ++ "_" ++
        Fluid.encodeBase62 (beNat (Fluid.uuidBytes 1700000000000 (fun i => i * 17)))) ∧
    Fluid.parse ("user" ++ "_" ++
        Fluid.encodeBase62 (beNat (Fluid.uuidBytes 1700000000000 (fun i => i * 17)))) =
      Except.ok ("user", ⟨uuidFormat (padStart32 (natToHex
        (beNat (Fluid.uuidBytes 1700000000000 (fun i => i * 17)))))⟩) ∧
    Fluid.uuidToBase62 ⟨uuidFormat (padStart32 (natToHex
        (beNat (Fluid.uuidBytes 1700000000000 (fun i => i * 17)))))⟩ =
      Fluid.encodeBase62 (beNat (Fluid.uuidBytes 1700000000000 (fun i => i * 17)))) ∧
    ((Fluid.generate ("user") 1700000000000 (fun i => i * 17)).toOption.getD "" =
      "user_2usyDNX9RZm0ifrpD9HeZ") :=
  ⟨claim_c1_roundtrip.1 ("user") 1700000000000 (fun i => i * 17) (by decide)
    (fun i hi => by show i * 17 < 256; omega), by decide⟩

/-- Claim C4: `validate` is total (it is a plain boolean function in this
embedding, mirroring the source's catch-all `try/catch`) and returns `true`
exactly when `parse` succeeds and the expected prefix — when one is supplied —
equals the parsed prefix byte-for-byte.  The same holds for the permissive
variant's `validatePrefixedId`, whose expected prefix is mandatory. -/
theorem claim_c4_validate_iff (id : String) (expected : Option String) :
    (Fluid.validate id expected = true ↔
      ∃ pr u, Fluid.parse id = Except.ok (pr, u) ∧
        (expected = none ∨ expected = some pr)) ∧
    (∀ q : String, HumanIds.validatePrefixedId id q = true ↔
      ∃ pr u, HumanIds.parsePrefixedId id = Except.ok (pr, u) ∧ pr = q) := by
  constructor
  · cases hparse : Fluid.parse id with
    | error e => simp [Fluid.validate, hparse]
    | ok pr_u =>
      obtain ⟨pr, u⟩ := pr_u
      cases expected with
      | none => simp [Fluid.validate, hparse]
      | some q =>
        simp only [Fluid.validate, hparse, beq_iff_eq, Except.ok.injEq, Prod.mk.injEq,
          Option.some.injEq]
        constructor
        · intro h
          exact ⟨pr, u, ⟨rfl, rfl⟩, Or.inr h.symm⟩
        · rintro ⟨pr', u', ⟨h1, h2⟩, h3 | h3⟩
          · exact absurd h3 (by simp)
          · rw [← h1] at h3
            exact h3.symm
  · intro q
    cases hparse : HumanIds.parsePrefixedId id with
    | error e => simp [HumanIds.validatePrefixedId, hparse]
    | ok pr_u =>
      obtain ⟨pr, u⟩ := pr_u
      simp only [HumanIds.validatePrefixedId, hparse, beq_iff_eq, Except.ok.injEq,
        Prod.mk.injEq]
      constructor
      · intro h
        exact ⟨pr, u, ⟨rfl, rfl⟩, h⟩
      · rintro ⟨pr', u', ⟨h1, h2⟩, h3⟩
        exact h1.trans h3

/-- Claim C5: length caps.  In the strict Base62 variant every id that
`generate` returns has length at most 63 — including for the boundary
40-character prefix — because the prefix is at most 40 characters, the
separator is one, and a Base62 encoding of a 128-bit value is at most 22
characters (there is no runtime check; the bound is arithmetic).  In the
permissive Base32 variant every returned id has length at most 255, and a
composition longer than 255 fails rather than being returned. -/
theorem claim_c5_length_caps :
    (∀ (p : String) (t : Nat) (r : Nat → Nat), (∀ i, i < 16 → r i < 256) →
      ∀ id, Fluid.generate p t r = Except.ok id → id.length ≤ 63) ∧
    (∀ (p : String) (t : Nat) (r : Nat → Nat),
      (∀ id, HumanIds.generatePrefixedId p t r = Except.ok id → id.length ≤ 255) ∧
      (255 < (p ++ "_" ++
          HumanIds.uuidToCrockfordBase32 (HumanIds.generateUUIDv7 t r)).length →
        ∀ id, ¬ HumanIds.generatePrefixedId p t r = Except.ok id)) := by
  constructor
  · intro p t r hr id hgen
    by_cases hp : Fluid.prefixOk p = true
    · rw [fluid_generate_eq p t r hp, fluid_uuidToBase62_gen t r hr] at hgen
      simp only [Except.ok.injEq] at hgen
      have hn := fluid_uuidNum_lt t r hr
      have h22 : (Fluid.encodeBase62 (beNat (Fluid.uuidBytes t r))).length ≤ 22 :=
        encodeBase62_length_le _ (lt_of_lt_of_le hn two_pow_128_le_62_pow_22)
      have h40 := (prefixOk_length p hp).2
      rw [← hgen, String.length_append, String.length_append]
      have hp' : p.length = p.data.length := rfl
      have hu : ("_" : String).length = 1 := rfl
      omega
    · rw [fluid_generate_invalid p t r hp] at hgen
      simp at hgen
  · intro p t r
    constructor
    · intro id hgen
      rw [HumanIds.generatePrefixedId] at hgen
      by_cases hc : 255 <
          (p ++ "_" ++ HumanIds.uuidToCrockfordBase32 (HumanIds.generateUUIDv7 t r)).length
      · rw [if_pos hc] at hgen
        simp at hgen
      · rw [if_neg hc] at hgen
        simp only [Except.ok.injEq] at hgen
        rw [← hgen]
        omega
    · intro hc id hgen
      rw [HumanIds.generatePrefixedId, if_pos hc] at hgen
      simp at hgen

/-- Witness for C5 at the boundary 40-character prefix (strict variant) and a
normal prefix (permissive variant). -/
theorem claim_c5_length_caps_witness :
    ((Fluid.generate (String.mk (List.replicate 40 'a')) 1700000000000
        (fun _ => 7)).toOption.getD "").length ≤ 63 ∧
    ((HumanIds.generatePrefixedId ("user") 1700000000000
        (fun _ => 7)).toOption.getD "").length ≤ 255 := by
  constructor
  · exact claim_c5_length_caps.1 (String.mk (List.replicate 40 'a')) 1700000000000
      (fun _ => 7) (fun i hi => by show (7 : Nat) < 256; omega) _ rfl
  · exact (claim_c5_length_caps.2 ("user") 1700000000000 (fun _ => 7)).1 _ rfl

/-- Witness for C4 at the concrete id `"user_0"`, validated with and without an
expected prefix. -/
theorem claim_c4_validate_iff_witness :
    Fluid.validate ("user_0") (some ("user")) = true ∧
    HumanIds.validatePrefixedId ("user_0") ("user") = true :=
  ⟨(claim_c4_validate_iff ("user_0") (some ("user"))).1.mpr
      ⟨"user", "00000000-0000-0000-0000-000000000000", by decide, Or.inr rfl⟩,
    ((claim_c4_validate_iff ("user_0") none).2 ("user")).mpr
      ⟨"user", "00000000-0000-0000-0000-000000000000", by decide, rfl⟩⟩
